import Mathlib

/-
Shallow embedding of `poker.py`, a five-card poker hand evaluator.

The Python module defines a `Card` class (parsed from a token such as "Ks"
or "10d"), a `Hand` class holding five distinct cards, a classification
method `Hand.eval` returning a `(category, determining-rank)` pair, and the
comparison special methods `__eq__`, `__ne__`, `__lt__`, `__le__` (with
`>` and `>=` obtained by Python's reflected-operand fallback).

Python exceptions are modelled with `Except`/`Option`: an assertion failure
in a constructor becomes a constructor error value, and a runtime error
(an unbound name, an out-of-bounds index) becomes a `PyError`.  Python's
stable `sorted` with a key function is modelled by `List.insertionSort`
on the corresponding key order; every key order used by the module is
antisymmetric on the lists it is applied to, so any stable sort yields the
same list.
-/

namespace Poker

/-- Runtime errors the module's methods can raise: `nameError` models a
Python `NameError` (an unbound global name), `indexError` an out-of-bounds
sequence index such as `rank_list[0]` on an empty list. -/
inductive PyError where
  | nameError
  | indexError
deriving DecidableEq

/-- Errors raised by the constructors' assertions, under the names the
specification gives them: a bad card token, a hand whose size is not 5,
and a hand with two identical cards. -/
inductive HandError where
  | invalidCard
  | invalidHandSize
  | duplicateCard
deriving DecidableEq

/-- The module-level rank table, mapping a rank name to its numeric rank. -/
def RANK_NAME_TO_RANK : List (String × Nat) :=
  [("2", 2), ("3", 3), ("4", 4), ("5", 5), ("6", 6), ("7", 7), ("8", 8),
   ("9", 9), ("10", 10), ("J", 11), ("Q", 12), ("K", 13), ("A", 14)]

/-- Dictionary lookup in `RANK_NAME_TO_RANK` (the keys are distinct, so
`find?` agrees with Python's dict access). -/
def rankLookup (s : String) : Option Nat :=
  (RANK_NAME_TO_RANK.find? (fun p => p.1 == s)).map (fun p => p.2)

/-- The valid suit characters, modelling the Python test `suit in "hdcs"`
(the tested value is always a single character). -/
def SUITS : List Char := ['h', 'd', 'c', 's']

/-- Playing card.  The Python class also stores the original token under
`name`, used only for display; its `__eq__` compares `(rank, suit)` only,
which is exactly this structure's equality.  For every card the constructor
accepts, the token is determined by `(rank, suit)`, so nothing observable
is lost by omitting `name`. -/
structure Card where
  rank : Nat
  suit : Char
deriving DecidableEq

/-- Card.__init__: split the token into `name[0:-1]` (rank text) and
`name[-1]` (suit character), look the rank up in the table and check the
suit.  `none` models a raised error: the assertion failures on a bad rank
or suit, and the `IndexError` that `name[-1]` raises on an empty token. -/
def Card.init (name : String) : Option Card :=
  match name.data.getLast? with
  | none => none
  | some su =>
    match rankLookup (String.mk name.data.dropLast) with
    | none => none
    | some r => if su ∈ SUITS then some ⟨r, su⟩ else none

/-- One element of the sequence given to the Hand constructor: an
already-constructed Card value or a string token. -/
inductive CardInput where
  | card (c : Card)
  | tok (s : String)

/-- The two input shapes the Hand constructor accepts: a single string of
whitespace-separated tokens, or a sequence of cards and/or tokens. -/
inductive HandInput where
  | str (s : String)
  | seq (items : List CardInput)

/-- The list-comprehension body `c if type(c) is Card else Card(c)`. -/
def parseItem : CardInput → Option Card
  | .card c => some c
  | .tok s => Card.init s

/-- The whole comprehension `[c if type(c) is Card else Card(c) for c in cards]`:
left to right, the first failing element aborts the construction. -/
def parseAll : List CardInput → Option (List Card)
  | [] => some []
  | it :: rest =>
    match parseItem it with
    | none => none
    | some c =>
      match parseAll rest with
      | none => none
      | some cs => some (c :: cs)

/-- Accumulator loop for `wsSplit`: the accumulator holds the current word
reversed. -/
def wsSplitAux : List Char → List Char → List String
  | [], acc => if acc = [] then [] else [String.mk acc.reverse]
  | c :: cs, acc =>
    if c.isWhitespace then
      if acc = [] then wsSplitAux cs []
      else String.mk acc.reverse :: wsSplitAux cs []
    else wsSplitAux cs (c :: acc)

/-- Python's `str.split()` with no arguments: the maximal runs of
non-whitespace characters, empty pieces dropped. -/
def wsSplit (s : String) : List String := wsSplitAux s.data []

/-- The items the constructor iterates over: a string input is split into
tokens first (`if type(cards) is str: cards = cards.split()`). -/
def inputItems : HandInput → List CardInput
  | .str s => (wsSplit s).map CardInput.tok
  | .seq items => items

/-- Hand of poker cards.  The constructor stores the parsed card list as
given; sorting happens only inside `__repr__` and `eval`. -/
structure Hand where
  cards : List Card
deriving DecidableEq

/-- Hand.__init__: parse every item, then `assert len(self.cards) == 5` and
`assert len(set(self.cards)) == 5`.  The set size is the number of distinct
cards under `Card.__eq__`, here `(List.dedup).length` (card hashes are
consistent with that equality for every constructible card, so Python's
set agrees). -/
def Hand.init (input : HandInput) : Except HandError Hand :=
  match parseAll (inputItems input) with
  | none => .error .invalidCard
  | some cs =>
    if cs.length = 5 then
      if cs.dedup.length = 5 then .ok ⟨cs⟩
      else .error .duplicateCard
    else .error .invalidHandSize

/-- The class attribute `Hand.hierarchy`, ranking the nine categories. -/
def hierarchy : List (String × Nat) :=
  [("straight flush", 9), ("four of a kind", 8), ("full house", 7),
   ("flush", 6), ("straight", 5), ("three of a kind", 4),
   ("two pair", 3), ("pair", 2), ("high card", 1)]

/-- Dictionary lookup in `hierarchy`. -/
def hierarchyLookup (category : String) : Option Nat :=
  (hierarchy.find? (fun p => p.1 == category)).map (fun p => p.2)

/-- Python's `range(a, b)` as a list of naturals. -/
def pyRange (a b : Nat) : List Nat := List.range' a (b - a)

/-- Hand.is_consecutive: sort the ranks ascending and compare the result
with `range(rank_list[0], rank_list[-1]+1)`, accepting `[2,3,4,5,14]` (the
wheel) as the one exception.  On an empty hand `rank_list[0]` raises
IndexError. -/
def Hand.is_consecutive (h : Hand) : Except PyError Bool :=
  match List.insertionSort (· ≤ ·) (h.cards.map Card.rank) with
  | [] => .error .indexError
  | a :: rest =>
    .ok (decide (a :: rest = pyRange a (rest.getLastD a + 1)) ||
         decide (a :: rest = [2, 3, 4, 5, 14]))

/-- The sort key `(14 - c.rank, -ord(c.suit))` used by `__repr__` and
`eval`: descending rank, then descending suit character code. -/
def cardKey (c : Card) : Int × Int := (14 - (c.rank : Int), -(c.suit.toNat : Int))

/-- Ascending lexicographic order on `cardKey`, the order `sorted` uses. -/
def cardLe (a b : Card) : Prop :=
  (cardKey a).1 < (cardKey b).1 ∨
  ((cardKey a).1 = (cardKey b).1 ∧ (cardKey a).2 ≤ (cardKey b).2)

instance : DecidableRel cardLe := fun a b => by unfold cardLe; infer_instance

instance : IsTotal Card cardLe := ⟨by intro a b; unfold cardLe; omega⟩

instance : IsTrans Card cardLe := ⟨by intro a b c; unfold cardLe; omega⟩

instance : IsAntisymm Card cardLe := ⟨by
  intro a b h1 h2
  have hr : a.rank = b.rank ∧ a.suit.toNat = b.suit.toNat := by
    unfold cardLe cardKey at h1 h2; omega
  have hs : a.suit = b.suit := by
    rw [← Char.ofNat_toNat a.suit, hr.2, Char.ofNat_toNat]
  cases a; cases b
  simp only at hr hs
  rw [hr.1, hs]⟩

/-- The local `sorted_hand` computed at the top of `eval`. -/
def sorted_hand (h : Hand) : List Card := List.insertionSort cardLe h.cards

/-- The local `ranks = [card.rank for card in sorted_hand]` of `eval`. -/
def handRanks (h : Hand) : List Nat := (sorted_hand h).map Card.rank

/-- The items of `collections.Counter(ranks)`: each distinct rank paired
with its multiplicity.  The Counter's own iteration order is arbitrary;
only the value multiset and the canonically re-sorted list below are used,
and both are independent of that order. -/
def handCounts (h : Hand) : List (Nat × Nat) :=
  (handRanks h).dedup.map (fun r => (r, (handRanks h).count r))

/-- Ascending order in the key `(-count, -rank)` used for
`sorted_by_counts`: descending count, then descending rank. -/
def countKeyLe (a b : Nat × Nat) : Prop :=
  b.2 < a.2 ∨ (a.2 = b.2 ∧ b.1 ≤ a.1)

instance : DecidableRel countKeyLe := fun a b => by unfold countKeyLe; infer_instance

instance : IsTotal (Nat × Nat) countKeyLe := ⟨by intro a b; unfold countKeyLe; omega⟩

instance : IsTrans (Nat × Nat) countKeyLe := ⟨by intro a b c; unfold countKeyLe; omega⟩

instance : IsAntisymm (Nat × Nat) countKeyLe := ⟨by
  intro a b h1 h2
  have : a.1 = b.1 ∧ a.2 = b.2 := by unfold countKeyLe at h1 h2; omega
  exact Prod.ext this.1 this.2⟩

/-- The local `sorted_by_counts` of `eval`: the Counter items sorted by
descending count, ties broken by descending rank. -/
def sorted_by_counts (h : Hand) : List (Nat × Nat) :=
  List.insertionSort countKeyLe (handCounts h)

/-- The local `suits = {card.suit for card in sorted_hand}` of `eval`,
as the list of distinct suits (only its size is used). -/
def handSuits (h : Hand) : List Char :=
  ((sorted_hand h).map Card.suit).dedup

/-- Hand.eval: classify the hand.  `determining = sorted_by_counts[0][0]`
is the rank with the highest count (ties going to the higher rank), and
the category is decided by the chain of `if` statements, in source order:
straight flush, four of a kind, full house, flush, straight, three of a
kind, two pair, pair, high card. -/
def Hand.eval (h : Hand) : Except PyError (String × Nat) :=
  let flush_status := (handSuits h).length == 1
  match h.is_consecutive with
  | .error e => .error e
  | .ok straight_status =>
    match sorted_by_counts h with
    | [] => .error .indexError
    | top :: _ =>
      let determining := top.1
      let countValues := (handCounts h).map (fun p => p.2)
      if straight_status && flush_status then .ok ("straight flush", determining)
      else if countValues.contains 4 then .ok ("four of a kind", determining)
      else if countValues.contains 3 && countValues.contains 2 then .ok ("full house", determining)
      else if flush_status then .ok ("flush", determining)
      else if straight_status then .ok ("straight", determining)
      else if countValues.contains 3 then .ok ("three of a kind", determining)
      else if 1 < countValues.count 2 then .ok ("two pair", determining)
      else if countValues.contains 2 then .ok ("pair", determining)
      else .ok ("high card", determining)

/-- Python 2's `<` on strings: lexicographic comparison by character code. -/
def pyStrLt : List Char → List Char → Bool
  | [], [] => false
  | [], _ :: _ => true
  | _ :: _, [] => false
  | a :: as, b :: bs =>
    if a.toNat < b.toNat then true
    else if a.toNat = b.toNat then pyStrLt as bs
    else false

/-- Python 2's `<=` on the `(category, determining)` tuples that `eval`
returns: lexicographic, comparing the category strings alphabetically. -/
def pyTupleLe (x y : String × Nat) : Bool :=
  pyStrLt x.1.data y.1.data || (x.1 == y.1 && x.2 ≤ y.2)

/-- Hand.__eq__: `self.eval() == other.eval()`, left operand first. -/
def Hand.eq (a b : Hand) : Except PyError Bool :=
  match a.eval with
  | .error e => .error e
  | .ok x =>
    match b.eval with
    | .error e => .error e
    | .ok y => .ok (decide (x = y))

/-- Hand.__ne__: `self.eval() != other.eval()`. -/
def Hand.ne (a b : Hand) : Except PyError Bool :=
  match a.eval with
  | .error e => .error e
  | .ok x =>
    match b.eval with
    | .error e => .error e
    | .ok y => .ok (decide (¬ x = y))

/-- Hand.__lt__: its first statement is
`if hierarchy[self.eval()] < hierarchy[other.eval()]:`.  The bare name
`hierarchy` is a class attribute, not a module global, so the name lookup
raises NameError before either `eval` call runs — on every invocation,
whatever the operands.  (Even with the name repaired the subscript would be
a KeyError, the table being keyed by category strings, not eval pairs, and
the equal-category branch falls off the end returning None.) -/
def Hand.lt (_a _b : Hand) : Except PyError Bool := .error .nameError

/-- Hand.__le__: `self.eval() <= other.eval()`, a Python 2 tuple
comparison, so categories are compared as strings — alphabetically. -/
def Hand.le (a b : Hand) : Except PyError Bool :=
  match a.eval with
  | .error e => .error e
  | .ok x =>
    match b.eval with
    | .error e => .error e
    | .ok y => .ok (pyTupleLe x y)

/-- Python 2 evaluates `a > b` by the reflected call `b.__lt__(a)` since
the class defines no `__gt__`. -/
def Hand.gt (a b : Hand) : Except PyError Bool := Hand.lt b a

/-- Python 2 evaluates `a >= b` by the reflected call `b.__le__(a)` since
the class defines no `__ge__`. -/
def Hand.ge (a b : Hand) : Except PyError Bool := Hand.le b a

/-- Specification-side predicate: the five ranks form a straight — five
consecutive values, or the wheel multiset `{2,3,4,5,14}`. -/
def straightRanksSpec (ranks : List Nat) : Prop :=
  (∃ lo, List.Perm ranks [lo, lo + 1, lo + 2, lo + 3, lo + 4]) ∨
  List.Perm ranks [2, 3, 4, 5, 14]

/-- Specification-side order for the claimed canonical storage order of a
hand: descending rank, ties by descending suit character code. -/
def descendingOrder (a b : Card) : Prop :=
  b.rank < a.rank ∨ (a.rank = b.rank ∧ b.suit.toNat ≤ a.suit.toNat)

instance : DecidableRel descendingOrder := fun a b => by unfold descendingOrder; infer_instance

/-- Joining tokens with single spaces, the simplest whitespace-separated
input string built from a token list. -/
def joinSpace : List String → String
  | [] => ""
  | [t] => t
  | t :: rest => t ++ " " ++ joinSpace rest

instance {ε α : Type} [DecidableEq ε] [DecidableEq α] : DecidableEq (Except ε α)
  | .error e, .error f => decidable_of_iff (e = f) (by simp)
  | .error _, .ok _ => isFalse (by intro hx; cases hx)
  | .ok _, .error _ => isFalse (by intro hx; cases hx)
  | .ok a, .ok b => decidable_of_iff (a = b) (by simp)

/-- Sorting is permutation-invariant for a total, transitive, antisymmetric
order: two permuted lists have the same sorted form. -/
theorem insertionSort_eq_of_perm {α : Type} {r : α → α → Prop} [DecidableRel r]
    [IsTotal α r] [IsTrans α r] [IsAntisymm α r] {l l2 : List α}
    (hp : List.Perm l l2) :
    List.insertionSort r l = List.insertionSort r l2 :=
  List.eq_of_perm_of_sorted
    ((List.perm_insertionSort r l).trans (hp.trans (List.perm_insertionSort r l2).symm))
    (List.sorted_insertionSort r l) (List.sorted_insertionSort r l2)

/-- A nonempty list whose elements are all equal to `a` dedups to `[a]`. -/
theorem dedup_all_eq {α : Type} [DecidableEq α] (a : α) :
    ∀ l : List α, l ≠ [] → (∀ x ∈ l, x = a) → l.dedup = [a]
  | [], hne, _ => absurd rfl hne
  | x :: xs, _, hall => by
    have hx : x = a := hall x (List.mem_cons_self x xs)
    subst hx
    by_cases hmem : x ∈ xs
    · rw [List.dedup_cons_of_mem hmem]
      exact dedup_all_eq x xs (List.ne_nil_of_mem hmem)
        (fun y hy => hall y (List.mem_cons_of_mem x hy))
    · cases xs with
      | nil => rfl
      | cons y ys =>
        exfalso
        apply hmem
        have hy : y = x := hall y (by simp)
        rw [← hy]
        exact List.mem_cons_self y ys

/-- A list of pre-built cards parses to itself. -/
theorem parseAll_map_card : ∀ cs : List Card, parseAll (cs.map CardInput.card) = some cs
  | [] => rfl
  | c :: cs => by simp [parseAll, parseItem, parseAll_map_card cs]

/-- When the whole input parses, every individual item parses. -/
theorem parseAll_sound : ∀ {items : List CardInput} {cs : List Card},
    parseAll items = some cs → ∀ it ∈ items, ∃ c, parseItem it = some c := by
  intro items
  induction items with
  | nil => intro cs _ it hit; cases hit
  | cons a rest ih =>
    intro cs hsome it hit
    unfold parseAll at hsome
    cases hp : parseItem a with
    | none => rw [hp] at hsome; exact absurd hsome (by simp)
    | some c =>
      rw [hp] at hsome
      cases hr : parseAll rest with
      | none => rw [hr] at hsome; exact absurd hsome (by simp)
      | some cs2 =>
        rcases List.mem_cons.mp hit with rfl | hmem
        · exact ⟨c, hp⟩
        · exact ih hr it hmem

/-- Shape of a successful Hand construction: the stored card list is the
parse of the input, has length 5, and has no duplicates. -/
theorem Hand.init_ok {input : HandInput} {h : Hand} (hi : Hand.init input = .ok h) :
    parseAll (inputItems input) = some h.cards ∧ h.cards.length = 5 ∧ h.cards.Nodup := by
  unfold Hand.init at hi
  split at hi
  · exact absurd hi (by simp)
  · next cs e =>
    split at hi
    · split at hi
      · next h5 hd =>
        have hcs : (⟨cs⟩ : Hand) = h := by cases hi; rfl
        subst hcs
        refine ⟨e, h5, ?_⟩
        have hsub : List.Sublist cs.dedup cs := List.dedup_sublist cs
        have hde : cs.dedup = cs := hsub.eq_of_length (by rw [hd, h5])
        show cs.Nodup
        rw [← hde]
        exact List.nodup_dedup cs
      · exact absurd hi (by simp)
    · exact absurd hi (by simp)

/-- When all cards of a nonempty hand share one suit, the suit set is a
singleton. -/
theorem handSuits_single (h : Hand) (hne : h.cards ≠ [])
    (hs : ∀ a ∈ h.cards, ∀ b ∈ h.cards, a.suit = b.suit) :
    ∃ s, handSuits h = [s] := by
  obtain ⟨c0, hc0⟩ : ∃ c, c ∈ h.cards := List.exists_mem_of_ne_nil h.cards hne
  refine ⟨c0.suit, ?_⟩
  unfold handSuits
  apply dedup_all_eq
  · intro hemp
    rw [List.map_eq_nil_iff] at hemp
    have hlen := (List.perm_insertionSort cardLe h.cards).length_eq
    unfold sorted_hand at hemp
    rw [hemp] at hlen
    simp only [List.length_nil] at hlen
    exact hne (List.eq_nil_of_length_eq_zero hlen.symm)
  · intro x hx
    obtain ⟨c, hcmem, rfl⟩ := List.mem_map.mp hx
    have hmem : c ∈ h.cards :=
      ((List.perm_insertionSort cardLe h.cards).mem_iff).mp hcmem
    exact hs c hmem c0 hc0

/-- The count-sorted list of a nonempty hand is nonempty, so
`sorted_by_counts[0]` is in bounds. -/
theorem sorted_by_counts_cons (h : Hand) (hne : h.cards ≠ []) :
    ∃ top rest, sorted_by_counts h = top :: rest := by
  cases e : sorted_by_counts h with
  | cons top rest => exact ⟨top, rest, rfl⟩
  | nil =>
    exfalso
    unfold sorted_by_counts at e
    have hlen := (List.perm_insertionSort countKeyLe (handCounts h)).length_eq
    rw [e] at hlen
    simp only [List.length_nil] at hlen
    have hcounts : handCounts h = [] := List.eq_nil_of_length_eq_zero hlen.symm
    unfold handCounts at hcounts
    rw [List.map_eq_nil_iff, List.dedup_eq_nil] at hcounts
    unfold handRanks at hcounts
    rw [List.map_eq_nil_iff] at hcounts
    have hlen2 := (List.perm_insertionSort cardLe h.cards).length_eq
    unfold sorted_hand at hcounts
    rw [hcounts] at hlen2
    simp only [List.length_nil] at hlen2
    exact hne (List.eq_nil_of_length_eq_zero hlen2.symm)

/-- The rank list of a nonempty hand is nonempty, so `is_consecutive`
returns a Boolean rather than raising. -/
theorem is_consecutive_ok (h : Hand) (hne : h.cards ≠ []) :
    ∃ b, h.is_consecutive = .ok b := by
  cases e : List.insertionSort (· ≤ ·) (h.cards.map Card.rank) with
  | cons a rest =>
    refine ⟨decide (a :: rest = pyRange a (rest.getLastD a + 1)) ||
      decide (a :: rest = [2, 3, 4, 5, 14]), ?_⟩
    unfold Hand.is_consecutive
    rw [e]
  | nil =>
    exfalso
    have hlen := (List.perm_insertionSort (· ≤ ·) (h.cards.map Card.rank)).length_eq
    rw [e] at hlen
    simp only [List.length_nil, List.length_map] at hlen
    exact hne (List.eq_nil_of_length_eq_zero hlen.symm)

/-- A hand whose ranks form a straight (in the specification's sense)
passes `is_consecutive`. -/
theorem is_consecutive_true (h : Hand)
    (hs : straightRanksSpec (h.cards.map Card.rank)) :
    h.is_consecutive = .ok true := by
  rcases hs with ⟨lo, hp⟩ | hp
  · have hsort : List.insertionSort (· ≤ ·) (h.cards.map Card.rank) =
        [lo, lo + 1, lo + 2, lo + 3, lo + 4] := by
      refine List.eq_of_perm_of_sorted ((List.perm_insertionSort _ _).trans hp)
        (List.sorted_insertionSort _ _) ?_
      simp [List.sorted_cons]
    unfold Hand.is_consecutive
    rw [hsort]
    have h1 : List.getLastD [lo + 1, lo + 2, lo + 3, lo + 4] lo = lo + 4 := by
      simp [List.getLastD]
    have h2 : lo + 4 + 1 - lo = 5 := by omega
    have h3 : List.range' lo 5 = [lo, lo + 1, lo + 2, lo + 3, lo + 4] := by
      simp [List.range']
    simp [pyRange, h1, h2, h3]
  · have hsort : List.insertionSort (· ≤ ·) (h.cards.map Card.rank) =
        [2, 3, 4, 5, 14] := by
      refine List.eq_of_perm_of_sorted ((List.perm_insertionSort _ _).trans hp)
        (List.sorted_insertionSort _ _) ?_
      decide
    unfold Hand.is_consecutive
    rw [hsort]
    rfl

/-- Sorted form of the cards is invariant under permutation of the hand. -/
theorem sorted_hand_perm {h h2 : Hand} (hp : List.Perm h.cards h2.cards) :
    sorted_hand h = sorted_hand h2 := insertionSort_eq_of_perm hp

/-- Rank list (of the sorted hand) is invariant under permutation. -/
theorem handRanks_perm {h h2 : Hand} (hp : List.Perm h.cards h2.cards) :
    handRanks h = handRanks h2 := by
  unfold handRanks; rw [sorted_hand_perm hp]

/-- Counter items are invariant under permutation. -/
theorem handCounts_perm {h h2 : Hand} (hp : List.Perm h.cards h2.cards) :
    handCounts h = handCounts h2 := by
  unfold handCounts; rw [handRanks_perm hp]

/-- The count-sorted list is invariant under permutation. -/
theorem sorted_by_counts_perm {h h2 : Hand} (hp : List.Perm h.cards h2.cards) :
    sorted_by_counts h = sorted_by_counts h2 := by
  unfold sorted_by_counts; rw [handCounts_perm hp]

/-- The suit set is invariant under permutation. -/
theorem handSuits_perm {h h2 : Hand} (hp : List.Perm h.cards h2.cards) :
    handSuits h = handSuits h2 := by
  unfold handSuits; rw [sorted_hand_perm hp]

/-- Straight detection is invariant under permutation. -/
theorem is_consecutive_perm {h h2 : Hand} (hp : List.Perm h.cards h2.cards) :
    h.is_consecutive = h2.is_consecutive := by
  unfold Hand.is_consecutive
  rw [insertionSort_eq_of_perm (hp.map Card.rank)]

/-- Classification is invariant under permutation of the stored cards. -/
theorem eval_perm_core {h h2 : Hand} (hp : List.Perm h.cards h2.cards) :
    h.eval = h2.eval := by
  simp only [Hand.eval]
  rw [handSuits_perm hp, is_consecutive_perm hp, sorted_by_counts_perm hp,
    handCounts_perm hp]

/-- C1: for every validly constructed 5-card Hand whose cards all share one
suit and whose ranks are consecutive (or the wheel), `eval` returns the
category "straight flush" — the first branch of the priority chain — and
never plain "flush" or "straight". -/
theorem eval_straight_flush_first (input : HandInput) (h : Hand)
    (hinit : Hand.init input = .ok h)
    (hsuit : ∀ a ∈ h.cards, ∀ b ∈ h.cards, a.suit = b.suit)
    (hstraight : straightRanksSpec (h.cards.map Card.rank)) :
    (∃ d, h.eval = .ok ("straight flush", d)) ∧
    ∀ d, h.eval ≠ .ok ("flush", d) ∧ h.eval ≠ .ok ("straight", d) := by
  obtain ⟨hparse, hlen, hnodup⟩ := Hand.init_ok hinit
  have hne : h.cards ≠ [] := by
    intro e; rw [e] at hlen; simp at hlen
  have hcons := is_consecutive_true h hstraight
  obtain ⟨s, hsuits⟩ := handSuits_single h hne hsuit
  obtain ⟨top, rest, hsbc⟩ := sorted_by_counts_cons h hne
  have heval : h.eval = .ok ("straight flush", top.1) := by
    simp [Hand.eval, hcons, hsuits, hsbc]
  refine ⟨⟨top.1, heval⟩, ?_⟩
  intro d
  rw [heval]
  constructor
  · intro hcon
    have hstr : "straight flush" = "flush" :=
      congrArg Prod.fst (Except.ok.inj hcon)
    exact absurd hstr (by decide)
  · intro hcon
    have hstr : "straight flush" = "straight" :=
      congrArg Prod.fst (Except.ok.inj hcon)
    exact absurd hstr (by decide)

/-- Instance of C1 at the royal flush "As Ks Qs Js 10s". -/
theorem eval_straight_flush_first_inst :
    (∃ d, Hand.eval ⟨[⟨14, 's'⟩, ⟨13, 's'⟩, ⟨12, 's'⟩, ⟨11, 's'⟩, ⟨10, 's'⟩]⟩ =
      .ok ("straight flush", d)) ∧
    ∀ d, Hand.eval ⟨[⟨14, 's'⟩, ⟨13, 's'⟩, ⟨12, 's'⟩, ⟨11, 's'⟩, ⟨10, 's'⟩]⟩ ≠
        .ok ("flush", d) ∧
      Hand.eval ⟨[⟨14, 's'⟩, ⟨13, 's'⟩, ⟨12, 's'⟩, ⟨11, 's'⟩, ⟨10, 's'⟩]⟩ ≠
        .ok ("straight", d) :=
  eval_straight_flush_first (.str "As Ks Qs Js 10s")
    ⟨[⟨14, 's'⟩, ⟨13, 's'⟩, ⟨12, 's'⟩, ⟨11, 's'⟩, ⟨10, 's'⟩]⟩
    rfl (by decide) (Or.inl ⟨10, by decide⟩)

/-- C2: the wheel "5c 4c 3d 2h Ah" does classify as "straight", but with
determining value 14 (the Ace), and the comparison against the 6-high
straight "6s 5c 4c 3d 2h" — which the module's own doctest
(`straight2 > straight3` is `True`) requires to rank the wheel lower —
raises NameError, because `__lt__` reads the unbound global `hierarchy`. -/
theorem wheel_doctest_bug :
    Hand.init (.str "5c 4c 3d 2h Ah") =
      .ok ⟨[⟨5, 'c'⟩, ⟨4, 'c'⟩, ⟨3, 'd'⟩, ⟨2, 'h'⟩, ⟨14, 'h'⟩]⟩ ∧
    Hand.init (.str "6s 5c 4c 3d 2h") =
      .ok ⟨[⟨6, 's'⟩, ⟨5, 'c'⟩, ⟨4, 'c'⟩, ⟨3, 'd'⟩, ⟨2, 'h'⟩]⟩ ∧
    Hand.eval ⟨[⟨5, 'c'⟩, ⟨4, 'c'⟩, ⟨3, 'd'⟩, ⟨2, 'h'⟩, ⟨14, 'h'⟩]⟩ =
      .ok ("straight", 14) ∧
    Hand.eval ⟨[⟨6, 's'⟩, ⟨5, 'c'⟩, ⟨4, 'c'⟩, ⟨3, 'd'⟩, ⟨2, 'h'⟩]⟩ =
      .ok ("straight", 6) ∧
    Hand.lt ⟨[⟨5, 'c'⟩, ⟨4, 'c'⟩, ⟨3, 'd'⟩, ⟨2, 'h'⟩, ⟨14, 'h'⟩]⟩
      ⟨[⟨6, 's'⟩, ⟨5, 'c'⟩, ⟨4, 'c'⟩, ⟨3, 'd'⟩, ⟨2, 'h'⟩]⟩ = .error .nameError ∧
    Hand.gt ⟨[⟨6, 's'⟩, ⟨5, 'c'⟩, ⟨4, 'c'⟩, ⟨3, 'd'⟩, ⟨2, 'h'⟩]⟩
      ⟨[⟨5, 'c'⟩, ⟨4, 'c'⟩, ⟨3, 'd'⟩, ⟨2, 'h'⟩, ⟨14, 'h'⟩]⟩ = .error .nameError :=
  ⟨rfl, rfl, rfl, rfl, rfl, rfl⟩

/-- C3: `less_than` never returns a Boolean: on every pair of hands,
including the two valid straight flushes of `__lt__`'s own doctest
(which expects `True`), the unbound-global read of `hierarchy` raises
NameError. -/
theorem lt_doctest_raises :
    Hand.init (.str "2d 3d 4d 5d 6d") =
      .ok ⟨[⟨2, 'd'⟩, ⟨3, 'd'⟩, ⟨4, 'd'⟩, ⟨5, 'd'⟩, ⟨6, 'd'⟩]⟩ ∧
    Hand.init (.str "3d 4d 5d 6d 7d") =
      .ok ⟨[⟨3, 'd'⟩, ⟨4, 'd'⟩, ⟨5, 'd'⟩, ⟨6, 'd'⟩, ⟨7, 'd'⟩]⟩ ∧
    ∀ a b : Hand, Hand.lt a b = .error .nameError :=
  ⟨rfl, rfl, fun _ _ => rfl⟩

/-- C4: the comparisons are not a strict total order and are mutually
inconsistent: for the valid hands A = "7s 7c 7d 2h 3d" (three of a kind,
hierarchy rank 4) and B = "6s 5c 4c 3d 2h" (straight, hierarchy rank 5),
`eq` is false but `lt` and `gt` both raise NameError — so none of the
trichotomy cases holds — and `le A B` is false even though A's category
rank is strictly lower, because `__le__` compares the category strings
alphabetically. -/
theorem comparison_trichotomy_fails :
    Hand.init (.str "7s 7c 7d 2h 3d") =
      .ok ⟨[⟨7, 's'⟩, ⟨7, 'c'⟩, ⟨7, 'd'⟩, ⟨2, 'h'⟩, ⟨3, 'd'⟩]⟩ ∧
    Hand.init (.str "6s 5c 4c 3d 2h") =
      .ok ⟨[⟨6, 's'⟩, ⟨5, 'c'⟩, ⟨4, 'c'⟩, ⟨3, 'd'⟩, ⟨2, 'h'⟩]⟩ ∧
    Hand.eval ⟨[⟨7, 's'⟩, ⟨7, 'c'⟩, ⟨7, 'd'⟩, ⟨2, 'h'⟩, ⟨3, 'd'⟩]⟩ =
      .ok ("three of a kind", 7) ∧
    Hand.eval ⟨[⟨6, 's'⟩, ⟨5, 'c'⟩, ⟨4, 'c'⟩, ⟨3, 'd'⟩, ⟨2, 'h'⟩]⟩ =
      .ok ("straight", 6) ∧
    hierarchyLookup "three of a kind" = some 4 ∧
    hierarchyLookup "straight" = some 5 ∧
    Hand.eq ⟨[⟨7, 's'⟩, ⟨7, 'c'⟩, ⟨7, 'd'⟩, ⟨2, 'h'⟩, ⟨3, 'd'⟩]⟩
      ⟨[⟨6, 's'⟩, ⟨5, 'c'⟩, ⟨4, 'c'⟩, ⟨3, 'd'⟩, ⟨2, 'h'⟩]⟩ = .ok false ∧
    Hand.lt ⟨[⟨7, 's'⟩, ⟨7, 'c'⟩, ⟨7, 'd'⟩, ⟨2, 'h'⟩, ⟨3, 'd'⟩]⟩
      ⟨[⟨6, 's'⟩, ⟨5, 'c'⟩, ⟨4, 'c'⟩, ⟨3, 'd'⟩, ⟨2, 'h'⟩]⟩ = .error .nameError ∧
    Hand.gt ⟨[⟨7, 's'⟩, ⟨7, 'c'⟩, ⟨7, 'd'⟩, ⟨2, 'h'⟩, ⟨3, 'd'⟩]⟩
      ⟨[⟨6, 's'⟩, ⟨5, 'c'⟩, ⟨4, 'c'⟩, ⟨3, 'd'⟩, ⟨2, 'h'⟩]⟩ = .error .nameError ∧
    Hand.le ⟨[⟨7, 's'⟩, ⟨7, 'c'⟩, ⟨7, 'd'⟩, ⟨2, 'h'⟩, ⟨3, 'd'⟩]⟩
      ⟨[⟨6, 's'⟩, ⟨5, 'c'⟩, ⟨4, 'c'⟩, ⟨3, 'd'⟩, ⟨2, 'h'⟩]⟩ = .ok false :=
  ⟨rfl, rfl, rfl, rfl, rfl, rfl, rfl, rfl, rfl, rfl⟩

/-- Counterexample to C5: the hand built from "2h 3h 4h 5h 7h" stores its
cards exactly in the order supplied — ascending — which is not the claimed
canonical descending-rank order. -/
theorem hand_cards_not_canonical :
    Hand.init (.str "2h 3h 4h 5h 7h") =
      .ok ⟨[⟨2, 'h'⟩, ⟨3, 'h'⟩, ⟨4, 'h'⟩, ⟨5, 'h'⟩, ⟨7, 'h'⟩]⟩ ∧
    ¬ List.Pairwise descendingOrder
      [⟨2, 'h'⟩, ⟨3, 'h'⟩, ⟨4, 'h'⟩, ⟨5, 'h'⟩, ⟨7, 'h'⟩] :=
  ⟨rfl, by decide⟩

/-- C5 (amended): the constructor stores the parsed cards in exactly the
order they were supplied; the canonical descending order is applied only
internally, by `__repr__` and `eval`, so those operations are still
deterministic regardless of input order. -/
theorem hand_stores_input_order (l : List Card) (h : Hand)
    (hinit : Hand.init (.seq (l.map CardInput.card)) = .ok h) :
    h.cards = l := by
  obtain ⟨hparse, -, -⟩ := Hand.init_ok hinit
  simp only [inputItems, parseAll_map_card] at hparse
  exact (Option.some.inj hparse).symm

/-- Instance of the amended C5 at a concrete ascending-order input. -/
theorem hand_stores_input_order_inst :
    (⟨[⟨2, 'h'⟩, ⟨3, 'h'⟩, ⟨4, 'h'⟩, ⟨5, 'h'⟩, ⟨7, 'h'⟩]⟩ : Hand).cards =
      [⟨2, 'h'⟩, ⟨3, 'h'⟩, ⟨4, 'h'⟩, ⟨5, 'h'⟩, ⟨7, 'h'⟩] :=
  hand_stores_input_order [⟨2, 'h'⟩, ⟨3, 'h'⟩, ⟨4, 'h'⟩, ⟨5, 'h'⟩, ⟨7, 'h'⟩]
    ⟨[⟨2, 'h'⟩, ⟨3, 'h'⟩, ⟨4, 'h'⟩, ⟨5, 'h'⟩, ⟨7, 'h'⟩]⟩ rfl

/-- C6: two validly constructed Hands whose input card sequences are
permutations of each other have identical `eval` results — category and
determining value both. -/
theorem eval_perm_invariant (l l2 : List Card) (h h2 : Hand)
    (hinit : Hand.init (.seq (l.map CardInput.card)) = .ok h)
    (hinit2 : Hand.init (.seq (l2.map CardInput.card)) = .ok h2)
    (hp : List.Perm l l2) :
    h.eval = h2.eval := by
  obtain ⟨hparse, -, -⟩ := Hand.init_ok hinit
  obtain ⟨hparse2, -, -⟩ := Hand.init_ok hinit2
  simp only [inputItems, parseAll_map_card] at hparse hparse2
  have e1 : h.cards = l := (Option.some.inj hparse).symm
  have e2 : h2.cards = l2 := (Option.some.inj hparse2).symm
  exact eval_perm_core (by rw [e1, e2]; exact hp)

/-- Instance of C6: the wheel supplied in two different orders. -/
theorem eval_perm_invariant_inst :
    Hand.eval ⟨[⟨14, 'h'⟩, ⟨2, 'h'⟩, ⟨3, 'd'⟩, ⟨4, 'c'⟩, ⟨5, 'c'⟩]⟩ =
    Hand.eval ⟨[⟨5, 'c'⟩, ⟨4, 'c'⟩, ⟨3, 'd'⟩, ⟨2, 'h'⟩, ⟨14, 'h'⟩]⟩ :=
  eval_perm_invariant
    [⟨14, 'h'⟩, ⟨2, 'h'⟩, ⟨3, 'd'⟩, ⟨4, 'c'⟩, ⟨5, 'c'⟩]
    [⟨5, 'c'⟩, ⟨4, 'c'⟩, ⟨3, 'd'⟩, ⟨2, 'h'⟩, ⟨14, 'h'⟩]
    ⟨[⟨14, 'h'⟩, ⟨2, 'h'⟩, ⟨3, 'd'⟩, ⟨4, 'c'⟩, ⟨5, 'c'⟩]⟩
    ⟨[⟨5, 'c'⟩, ⟨4, 'c'⟩, ⟨3, 'd'⟩, ⟨2, 'h'⟩, ⟨14, 'h'⟩]⟩
    rfl rfl (by decide)

/-- Rebuilding a string from its character list is the identity. -/
theorem string_mk_data (s : String) : String.mk s.data = s := by cases s; rfl

/-- Every entry of the rank table is found by `rankLookup`. -/
theorem rankLookup_of_mem : ∀ p ∈ RANK_NAME_TO_RANK, rankLookup p.1 = some p.2 := by
  decide

/-- A successful `rankLookup` comes from a table entry. -/
theorem mem_of_rankLookup {s : String} {r : Nat} (hl : rankLookup s = some r) :
    (s, r) ∈ RANK_NAME_TO_RANK := by
  unfold rankLookup at hl
  cases e : RANK_NAME_TO_RANK.find? (fun p => p.1 == s) with
  | none => rw [e] at hl; cases hl
  | some q =>
    rw [e] at hl
    have hq : q ∈ RANK_NAME_TO_RANK := List.mem_of_find?_eq_some e
    have hqs : q.1 = s := by
      have := List.find?_some e
      simpa using this
    have hqr : q.2 = r := by simpa using hl
    have hqe : q = (s, r) := Prod.ext hqs hqr
    rw [← hqe]; exact hq

/-- The rank names in the table are nonempty and contain no whitespace. -/
theorem table_keys_nonws :
    ∀ p ∈ RANK_NAME_TO_RANK, p.1.data ≠ [] ∧ ∀ ch ∈ p.1.data, ¬ ch.isWhitespace := by
  decide

/-- The suit characters are not whitespace. -/
theorem suits_nonws : ∀ su ∈ SUITS, ¬ su.isWhitespace := by decide

/-- A token accepted by `Card.init` is nonempty and whitespace-free, so
`str.split()` leaves it intact. -/
theorem card_token_chars {t : String} {c : Card} (hc : Card.init t = some c) :
    t.data ≠ [] ∧ ∀ ch ∈ t.data, ¬ ch.isWhitespace := by
  unfold Card.init at hc
  cases e : t.data.getLast? with
  | none => rw [e] at hc; cases hc
  | some su =>
    rw [e] at hc
    cases f : rankLookup (String.mk t.data.dropLast) with
    | none => rw [f] at hc; cases hc
    | some r =>
      rw [f] at hc
      have hne : t.data ≠ [] := by
        intro hnil; rw [hnil] at e; cases e
      have hlast : t.data.getLast hne = su := by
        have hopt := List.getLast?_eq_getLast t.data hne
        rw [e] at hopt
        exact (Option.some.inj hopt).symm
      have hdecomp : t.data.dropLast ++ [su] = t.data := by
        rw [← hlast]; exact List.dropLast_append_getLast hne
      have hmem : (String.mk t.data.dropLast, r) ∈ RANK_NAME_TO_RANK :=
        mem_of_rankLookup f
      have hkey := table_keys_nonws _ hmem
      by_cases hsu : su ∈ SUITS
      · have hsuw := suits_nonws su hsu
        refine ⟨hne, ?_⟩
        intro ch hch
        rw [← hdecomp] at hch
        rcases List.mem_append.mp hch with hch | hch
        · exact hkey.2 ch hch
        · rw [List.mem_singleton] at hch; rw [hch]; exact hsuw
      · simp [hsu] at hc

/-- Scanning a whitespace-free block just accumulates its characters. -/
theorem wsSplitAux_nonws (w : List Char) (hw : ∀ ch ∈ w, ¬ ch.isWhitespace) :
    ∀ cs acc, wsSplitAux (w ++ cs) acc = wsSplitAux cs (w.reverse ++ acc) := by
  induction w with
  | nil => intro cs acc; simp
  | cons c w ih =>
    intro cs acc
    have hc : c.isWhitespace = false := by
      have := hw c (by simp)
      simpa using this
    rw [List.cons_append]
    rw [show wsSplitAux (c :: (w ++ cs)) acc = wsSplitAux (w ++ cs) (c :: acc) from by
      simp only [wsSplitAux]
      simp [hc]]
    rw [ih (fun ch hch => hw ch (by simp [hch])) cs (c :: acc)]
    congr 1
    simp

/-- A space after a nonempty accumulated word emits the word. -/
theorem wsSplitAux_space (acc : List Char) (hacc : acc ≠ []) (cs : List Char) :
    wsSplitAux (' ' :: cs) acc = String.mk acc.reverse :: wsSplitAux cs [] := by
  have hsp : (' ').isWhitespace = true := by decide
  simp only [wsSplitAux]
  simp [hsp, hacc]

/-- Splitting the space-joined token list recovers the tokens, provided
each token is nonempty and whitespace-free. -/
theorem wsSplit_joinSpace : ∀ toks : List String,
    (∀ t ∈ toks, t.data ≠ [] ∧ ∀ ch ∈ t.data, ¬ ch.isWhitespace) →
    wsSplit (joinSpace toks) = toks
  | [], _ => rfl
  | [t], hv => by
    obtain ⟨hne, hnw⟩ := hv t (by simp)
    unfold joinSpace wsSplit
    have hstep := wsSplitAux_nonws t.data hnw [] []
    rw [List.append_nil] at hstep
    rw [hstep]
    unfold wsSplitAux
    simp [hne, string_mk_data]
  | t :: t2 :: rest, hv => by
    obtain ⟨hne, hnw⟩ := hv t (by simp)
    have hrec := wsSplit_joinSpace (t2 :: rest) (fun s hs => hv s (by simp [hs]))
    unfold wsSplit at hrec
    show wsSplit (t ++ " " ++ joinSpace (t2 :: rest)) = t :: t2 :: rest
    unfold wsSplit
    have hdata : (t ++ " " ++ joinSpace (t2 :: rest)).data =
        t.data ++ (' ' :: (joinSpace (t2 :: rest)).data) := by
      simp
    rw [hdata]
    rw [wsSplitAux_nonws t.data hnw (' ' :: (joinSpace (t2 :: rest)).data) []]
    rw [wsSplitAux_space (t.data.reverse ++ []) (by simp [hne]) _]
    rw [hrec]
    simp [string_mk_data]

/-- C10: the constructor accepts a whitespace-separated token string and a
mixed Card/token sequence, and both construct exactly the Hand built from
the homogeneous sequence of parsed Card values. -/
theorem hand_init_string_and_mixed (toks : List String) (items : List CardInput)
    (cs : List Card)
    (htoks : parseAll (toks.map CardInput.tok) = some cs)
    (hitems : parseAll items = some cs) :
    Hand.init (.str (joinSpace toks)) = Hand.init (.seq (cs.map CardInput.card)) ∧
    Hand.init (.seq items) = Hand.init (.seq (cs.map CardInput.card)) := by
  have hv : ∀ t ∈ toks, t.data ≠ [] ∧ ∀ ch ∈ t.data, ¬ ch.isWhitespace := by
    intro t ht
    obtain ⟨c, hcp⟩ := parseAll_sound htoks (CardInput.tok t)
      (List.mem_map_of_mem CardInput.tok ht)
    exact card_token_chars hcp
  have hround : wsSplit (joinSpace toks) = toks := wsSplit_joinSpace toks hv
  constructor
  · unfold Hand.init
    simp only [inputItems]
    rw [hround, htoks, parseAll_map_card]
  · unfold Hand.init
    simp only [inputItems]
    rw [hitems, parseAll_map_card]

/-- Instance of C10: "As Ks Qs Js 10s" as one string, and a sequence
mixing Card values with tokens, both equal the all-Cards construction. -/
theorem hand_init_string_and_mixed_inst :
    Hand.init (.str (joinSpace ["As", "Ks", "Qs", "Js", "10s"])) =
      Hand.init (.seq ([⟨14, 's'⟩, ⟨13, 's'⟩, ⟨12, 's'⟩, ⟨11, 's'⟩,
        ⟨10, 's'⟩].map CardInput.card)) ∧
    Hand.init (.seq [.card ⟨14, 's'⟩, .tok "Ks", .card ⟨12, 's'⟩, .tok "Js",
        .tok "10s"]) =
      Hand.init (.seq ([⟨14, 's'⟩, ⟨13, 's'⟩, ⟨12, 's'⟩, ⟨11, 's'⟩,
        ⟨10, 's'⟩].map CardInput.card)) :=
  hand_init_string_and_mixed ["As", "Ks", "Qs", "Js", "10s"]
    [.card ⟨14, 's'⟩, .tok "Ks", .card ⟨12, 's'⟩, .tok "Js", .tok "10s"]
    [⟨14, 's'⟩, ⟨13, 's'⟩, ⟨12, 's'⟩, ⟨11, 's'⟩, ⟨10, 's'⟩] rfl rfl

/-- C7: Card construction succeeds exactly on a token consisting of a rank
name from the table followed by one of the four suit characters, storing
the mapped rank and the final character; every other token is rejected. -/
theorem card_init_characterization (name : String) :
    (∀ pre r su, name = String.mk (pre.data ++ [su]) →
      (pre, r) ∈ RANK_NAME_TO_RANK → su ∈ SUITS →
      Card.init name = some ⟨r, su⟩) ∧
    ((¬ ∃ pre r su, name = String.mk (pre.data ++ [su]) ∧
      (pre, r) ∈ RANK_NAME_TO_RANK ∧ su ∈ SUITS) →
      Card.init name = none) := by
  constructor
  · intro pre r su hname hmem hsu
    subst hname
    have e1 : (String.mk (pre.data ++ [su])).data.getLast? = some su := by
      show (pre.data ++ [su]).getLast? = some su
      simp
    have e2 : (String.mk (pre.data ++ [su])).data.dropLast = pre.data := by
      show (pre.data ++ [su]).dropLast = pre.data
      simp
    have e3 : rankLookup pre = some r := rankLookup_of_mem (pre, r) hmem
    unfold Card.init
    rw [e1, e2, string_mk_data, e3]
    simp [hsu]
  · intro hno
    unfold Card.init
    cases e : name.data.getLast? with
    | none => rfl
    | some su =>
      cases f : rankLookup (String.mk name.data.dropLast) with
      | none => rfl
      | some r =>
        by_cases hsu : su ∈ SUITS
        · exfalso
          apply hno
          have hne : name.data ≠ [] := by intro hnil; rw [hnil] at e; cases e
          have hlast : name.data.getLast hne = su := by
            have hopt := List.getLast?_eq_getLast name.data hne
            rw [e] at hopt
            exact (Option.some.inj hopt).symm
          refine ⟨String.mk name.data.dropLast, r, su, ?_, mem_of_rankLookup f, hsu⟩
          show name = String.mk (name.data.dropLast ++ [su])
          rw [← hlast, List.dropLast_append_getLast hne, string_mk_data]
        · simp [hsu]

/-- Instance of C7: "10d" parses to rank 10 suit 'd'; the empty token is
rejected. -/
theorem card_init_characterization_inst :
    Card.init "10d" = some ⟨10, 'd'⟩ ∧ Card.init "" = none := by
  constructor
  · exact (card_init_characterization "10d").1 "10" 10 'd' rfl (by decide) (by decide)
  · refine (card_init_characterization "").2 ?_
    rintro ⟨pre, r, su, hname, -, -⟩
    have hd : ([] : List Char) = pre.data ++ [su] := congrArg String.data hname
    exact absurd hd.symm (by simp)

/-- C8: Hand construction from cards is rejected with `invalidHandSize`
when the count is not 5, with `duplicateCard` when two of 5 cards coincide,
and otherwise succeeds, storing exactly the given cards. -/
theorem hand_init_validation (l : List Card) :
    (l.length ≠ 5 → Hand.init (.seq (l.map CardInput.card)) = .error .invalidHandSize) ∧
    (l.length = 5 → ¬ l.Nodup →
      Hand.init (.seq (l.map CardInput.card)) = .error .duplicateCard) ∧
    (l.length = 5 → l.Nodup → Hand.init (.seq (l.map CardInput.card)) = .ok ⟨l⟩) := by
  have hbase : Hand.init (.seq (l.map CardInput.card)) =
      (if l.length = 5 then
        if l.dedup.length = 5 then .ok ⟨l⟩ else .error .duplicateCard
      else .error .invalidHandSize) := by
    unfold Hand.init
    simp only [inputItems]
    rw [parseAll_map_card]
  refine ⟨?_, ?_, ?_⟩
  · intro h5
    rw [hbase, if_neg h5]
  · intro h5 hnd
    have hlt : l.dedup.length ≠ 5 := by
      intro he
      apply hnd
      have hde : l.dedup = l := (List.dedup_sublist l).eq_of_length (by rw [he, h5])
      rw [← hde]; exact List.nodup_dedup l
    rw [hbase, if_pos h5, if_neg hlt]
  · intro h5 hnd
    have hde : l.dedup = l := List.dedup_eq_self.mpr hnd
    rw [hbase, if_pos h5, if_pos (by rw [hde, h5])]

/-- Instance of C8: a 4-card input, a duplicated card, and a good hand. -/
theorem hand_init_validation_inst :
    Hand.init (.seq ([⟨2, 'h'⟩, ⟨3, 'h'⟩, ⟨4, 'h'⟩, ⟨5, 'h'⟩].map CardInput.card)) =
      .error .invalidHandSize ∧
    Hand.init (.seq ([⟨2, 'h'⟩, ⟨2, 'h'⟩, ⟨4, 'h'⟩, ⟨5, 'h'⟩,
        ⟨6, 'h'⟩].map CardInput.card)) = .error .duplicateCard ∧
    Hand.init (.seq ([⟨2, 'h'⟩, ⟨3, 'h'⟩, ⟨4, 'h'⟩, ⟨5, 'h'⟩,
        ⟨6, 'h'⟩].map CardInput.card)) =
      .ok ⟨[⟨2, 'h'⟩, ⟨3, 'h'⟩, ⟨4, 'h'⟩, ⟨5, 'h'⟩, ⟨6, 'h'⟩]⟩ :=
  ⟨(hand_init_validation [⟨2, 'h'⟩, ⟨3, 'h'⟩, ⟨4, 'h'⟩, ⟨5, 'h'⟩]).1 (by decide),
   (hand_init_validation [⟨2, 'h'⟩, ⟨2, 'h'⟩, ⟨4, 'h'⟩, ⟨5, 'h'⟩, ⟨6, 'h'⟩]).2.1
     (by decide) (by decide),
   (hand_init_validation [⟨2, 'h'⟩, ⟨3, 'h'⟩, ⟨4, 'h'⟩, ⟨5, 'h'⟩, ⟨6, 'h'⟩]).2.2
     (by decide) (by decide)⟩

/-- C9: on every validly constructed Hand, `is_consecutive` returns a
Boolean and `eval` returns a `(category, determining)` pair — no branch
raises; the rank-list and count-list accesses are in bounds. -/
theorem eval_total (input : HandInput) (h : Hand)
    (hinit : Hand.init input = .ok h) :
    (∃ b, h.is_consecutive = .ok b) ∧ ∃ res, h.eval = .ok res := by
  obtain ⟨-, hlen, -⟩ := Hand.init_ok hinit
  have hne : h.cards ≠ [] := by intro e; rw [e] at hlen; simp at hlen
  obtain ⟨b, hb⟩ := is_consecutive_ok h hne
  obtain ⟨top, rest, hsbc⟩ := sorted_by_counts_cons h hne
  refine ⟨⟨b, hb⟩, ?_⟩
  have hshape : ∀ (s f : Bool) (cv : List Nat) (d : Nat),
      ∃ res, (if s && f then (.ok ("straight flush", d) : Except PyError (String × Nat))
        else if cv.contains 4 then .ok ("four of a kind", d)
        else if cv.contains 3 && cv.contains 2 then .ok ("full house", d)
        else if f then .ok ("flush", d)
        else if s then .ok ("straight", d)
        else if cv.contains 3 then .ok ("three of a kind", d)
        else if 1 < cv.count 2 then .ok ("two pair", d)
        else if cv.contains 2 then .ok ("pair", d)
        else .ok ("high card", d)) = .ok res := by
    intro s f cv d
    repeat' split
    all_goals exact ⟨_, rfl⟩
  simp only [Hand.eval, hb, hsbc]
  exact hshape b ((handSuits h).length == 1) ((handCounts h).map (fun p => p.2)) top.1

/-- Instance of C9 at the high-card hand "As 7d 5c 4d 3h". -/
theorem eval_total_inst :
    (∃ b, Hand.is_consecutive ⟨[⟨14, 's'⟩, ⟨7, 'd'⟩, ⟨5, 'c'⟩, ⟨4, 'd'⟩, ⟨3, 'h'⟩]⟩ =
      .ok b) ∧
    ∃ res, Hand.eval ⟨[⟨14, 's'⟩, ⟨7, 'd'⟩, ⟨5, 'c'⟩, ⟨4, 'd'⟩, ⟨3, 'h'⟩]⟩ =
      .ok res :=
  eval_total (.str "As 7d 5c 4d 3h")
    ⟨[⟨14, 's'⟩, ⟨7, 'd'⟩, ⟨5, 'c'⟩, ⟨4, 'd'⟩, ⟨3, 'h'⟩]⟩ rfl

end Poker
